import Mathlib

/-!
Verification of the static web server in `src/web/server.js` (Express).

The server installs, in order:
1. `app.use('/web', express.static(WEB_DIR, { index: 'index.html', extensions: ['html'] }))`
2. `app.use(express.static(WEB_DIR, { index: 'index.html', extensions: ['html'] }))`
3. `app.use(express.static(__dirname, { index: 'index.html', extensions: ['html'] }))`
4. `app.get('/health', (req,res) => res.json({ ok: true }))`
5. `app.get('/', (req,res) => res.redirect('/web/buyer/'))`
and `const PORT = process.env.PORT || 8080`.

Here `WEB_DIR = path.join(__dirname, 'web')`, so with `base` standing for
`__dirname`, root (a) is `base ++ ["web"]` and root (b) is `base`.

The embedding models a GET request path as its slash-separated segments plus
a trailing-slash flag, the filesystem as a finite list of (path, contents)
pairs, and each `express.static` middleware by the semantics of
serve-static/send with the options used in the source and the defaults
(`fallthrough: true`, `redirect: true`, default dotfile handling):
  - send first normalizes the path (collapsing `.` and empty segments and
    resolving `..` against the preceding segments) and only then refuses
    (403) a path that still begins with `..` — one that would climb above
    the root; because of `fallthrough` the middleware then passes to the
    next handler, while an in-root `..` path such as `/a/../b.txt` is
    resolved and served normally;
  - a non-trailing-slash path whose final normalized segment begins with
    `.` is ignored (404) and passes; after a trailing slash the last split
    part is empty, so dotfile directories still get their index served;
  - a trailing-slash path serves `<dir>/index.html` if that file exists,
    otherwise passes;
  - otherwise the resolved path is served if it is a file; if it is a
    directory, a 301 redirect to the path plus `/` is sent; if it is absent
    and the path has no file extension, the path with `.html` appended is
    tried; any remaining failure passes.
Express strips the mount prefix `/web` case-insensitively, and route paths
(`/health`, `/`) match case-insensitively with an optional trailing slash
(default `caseSensitive: false`, `strict: false`).
-/

namespace Foody

/-- A request path: the slash-separated segments after the leading `/`, and
whether the path ends with a slash. `/` is `⟨[], true⟩`, `/web/buyer/` is
`⟨["web","buyer"], true⟩`, `/health` is `⟨["health"], false⟩`. -/
structure ReqPath where
  segs : List String
  trailing : Bool
deriving DecidableEq

/-- The filesystem visible to the server: a finite list of regular files,
each given by its absolute path (as segments) and its byte contents. A
directory exists exactly when it is a proper prefix of some file's path. -/
structure FS where
  files : List (List String × String)
deriving DecidableEq

/-- Contents of the regular file at `p`, if any (models a successful
`fs.stat` on a file plus reading it). -/
def FS.lookup (fs : FS) (p : List String) : Option String :=
  (fs.files.find? (fun e => e.1 == p)).map (fun e => e.2)

/-- Whether `p` is a directory: a proper prefix of some file's path
(models `fs.stat` reporting a directory). -/
def FS.isDir (fs : FS) (p : List String) : Bool :=
  fs.files.any (fun e => !(e.1 == p) && p.isPrefixOf e.1)

/-- A well-formed path segment on disk: nonempty and not the special `.`
or `..` entries. -/
def segOk (s : String) : Bool := !(s == "" || s == "." || s == "..")

/-- Well-formed filesystem: every stored file path consists of ordinary
segments (a real filesystem has no file whose name is `..`, `.` or empty). -/
def FS.wfb (fs : FS) : Bool :=
  fs.files.all (fun e => e.1.all segOk)

/-- Lowercase an ASCII letter (the segments the routes compare against are
ASCII, which is all the case-insensitive matching in play needs). -/
def lowerChar (c : Char) : Char :=
  if 65 ≤ c.toNat && c.toNat ≤ 90 then Char.ofNat (c.toNat + 32) else c

/-- Lowercase a string, character by character. -/
def lowerStr (s : String) : String := ⟨s.data.map lowerChar⟩

/-- Whether a segment begins with a dot (a "dotfile" basename). -/
def headDot (s : String) : Bool :=
  match s.data with
  | [] => false
  | c :: _ => c == '.'

/-- Whether a path's final segment carries a file extension, as node's
`path.extname` sees it: a dot somewhere after the first character. -/
def hasExt (s : String) : Bool := (s.data.drop 1).contains '.'

/-- Append `.html` to the last segment of a path (send's `extensions`
option resolves `p` to `p.html`). -/
def withHtml : List String → List String
  | [] => []
  | [s] => [s ++ ".html"]
  | s :: r => s :: withHtml r

/-- One step stack machine for node's `path.normalize('.' + sep + path)`
followed by send's malicious-path test: `.` and empty segments are
dropped, `..` pops the previously accepted segment, and a `..` that finds
nothing to pop (the normalized path would start with `..`, escaping the
root) yields `none` — send answers 403 there. -/
def normAux : List String → List String → Option (List String)
  | acc, [] => some acc
  | acc, s :: rest =>
    if s == "" || s == "." then normAux acc rest
    else if s == ".." then
      match acc with
      | [] => none
      | _ :: _ => normAux acc.dropLast rest
    else normAux (acc ++ [s]) rest

/-- Normalize a request path's segments as send does before resolving them
against the root; `none` is the refused (403) escape case. -/
def normSegs (segs : List String) : Option (List String) := normAux [] segs

/-- Outcome of one `express.static` middleware on a request. -/
inductive SR
  | served (c : String)
  | redir
  | pass
deriving DecidableEq

/-- Core of one static middleware, after normalization: `ns` is the
normalized segment list. Send ignores (404, hence pass) a dotfile final
part — only reachable without a trailing slash, since a trailing slash
makes the last split part empty; then a trailing-slash path probes the
index file, and otherwise the path itself is probed as a file, as a
directory (301 redirect), and, when extensionless, as its `.html`
variant. -/
def staticCore (fs : FS) (root : List String) (ns : List String) (trailing : Bool) : SR :=
  if !trailing && (ns.getLast?.map headDot).getD false then SR.pass
  else if trailing then
    match fs.lookup (root ++ ns ++ ["index.html"]) with
    | some c => SR.served c
    | none => SR.pass
  else
    match fs.lookup (root ++ ns) with
    | some c => SR.served c
    | none =>
      if fs.isDir (root ++ ns) then SR.redir
      else if ((root ++ ns).getLast?.map hasExt).getD true then SR.pass
      else
        match fs.lookup (withHtml (root ++ ns)) with
        | some c => SR.served c
        | none => SR.pass

/-- One `express.static(root, { index: 'index.html', extensions: ['html'] })`
middleware applied to the (already mount-stripped) path `segs`/`trailing`,
following serve-static/send with default `fallthrough`, `redirect` and
dotfile handling: normalize first, refuse (and fall through) only paths
that would climb above the root, then resolve the normalized path. -/
def staticServe (fs : FS) (root : List String) (segs : List String) (trailing : Bool) : SR :=
  match normSegs segs with
  | none => SR.pass
  | some ns => staticCore fs root ns trailing

/-- An HTTP response of the server, as far as the spec observes it. -/
inductive Response
  | file (body : String)
  | json (body : String)
  | redirect301 (loc : String)
  | redirect302 (loc : String)
  | notFound
deriving DecidableEq

/-- The serialized body `res.json({ ok: true })` sends. -/
def jsonOkBody : String := "\x7b\"ok\":true\x7d"

/-- Join path segments with slashes. -/
def joinSegs : List String → String
  | [] => ""
  | [s] => s
  | s :: r => s ++ "/" ++ joinSegs r

/-- Render a request path back to its string form. -/
def pathString (p : ReqPath) : String :=
  "/" ++ joinSegs p.segs ++ (if p.trailing then "/" else "")

/-- Root (a): `WEB_DIR = path.join(__dirname, 'web')`. -/
def rootA (base : List String) : List String := base ++ ["web"]

/-- Whether the request path matches the `/web` mount of the first
middleware (Express mounts match case-insensitively by default). -/
def mountWeb (p : ReqPath) : Bool :=
  (p.segs.head?.map (fun s => lowerStr s == "web")).getD false

/-- First strategy: the middleware mounted at `/web`, serving root (a) on
the path with the mount prefix stripped. -/
def strat1 (base : List String) (fs : FS) (p : ReqPath) : SR :=
  if mountWeb p then staticServe fs (rootA base) p.segs.tail p.trailing else SR.pass

/-- Second strategy: root (a) on the full original path. -/
def strat2 (base : List String) (fs : FS) (p : ReqPath) : SR :=
  staticServe fs (rootA base) p.segs p.trailing

/-- Third strategy: root (b), the server's own directory, on the full path. -/
def strat3 (base : List String) (fs : FS) (p : ReqPath) : SR :=
  staticServe fs base p.segs p.trailing

/-- Whether `app.get('/health')` matches: Express routing is
case-insensitive and ignores one trailing slash by default. -/
def matchHealth (p : ReqPath) : Bool := p.segs.map lowerStr == ["health"]

/-- Whether `app.get('/')` matches. -/
def matchRoot (p : ReqPath) : Bool := p.segs == []

/-- The whole server: the three static strategies in order, then the
`/health` route, then the `/` redirect, then Express's default 404. -/
def serve (base : List String) (fs : FS) (p : ReqPath) : Response :=
  match strat1 base fs p with
  | SR.served c => Response.file c
  | SR.redir => Response.redirect301 (pathString p ++ "/")
  | SR.pass =>
    match strat2 base fs p with
    | SR.served c => Response.file c
    | SR.redir => Response.redirect301 (pathString p ++ "/")
    | SR.pass =>
      match strat3 base fs p with
      | SR.served c => Response.file c
      | SR.redir => Response.redirect301 (pathString p ++ "/")
      | SR.pass =>
        if matchHealth p then Response.json jsonOkBody
        else if matchRoot p then Response.redirect302 "/web/buyer/"
        else Response.notFound

/-- The listen port, from `const PORT = process.env.PORT || 8080`: the
environment string when set and truthy (JavaScript `||`), else the number
8080. The empty string is falsy in JavaScript. -/
def portOf : Option String → String ⊕ Nat
  | none => Sum.inr 8080
  | some s => if s == "" then Sum.inr 8080 else Sum.inl s

/-- All four file probes of one static strategy miss: no index file, no
file at the path itself, no directory there, and no `.html` variant. -/
def noMatch (fs : FS) (root : List String) (segs : List String) : Prop :=
  fs.lookup (root ++ segs ++ ["index.html"]) = none ∧
  fs.lookup (root ++ segs) = none ∧
  fs.isDir (root ++ segs) = false ∧
  fs.lookup (withHtml (root ++ segs)) = none

instance noMatchDecidable (fs : FS) (root segs : List String) :
    Decidable (noMatch fs root segs) := by
  unfold noMatch
  infer_instance

theorem lookup_mem {fs : FS} {p : List String} {c : String} (h : fs.lookup p = some c) :
    ∃ e ∈ fs.files, e.1 = p ∧ e.2 = c := by
  unfold FS.lookup at h
  rcases Option.map_eq_some'.mp h with ⟨e, hfind, hsnd⟩
  have hpred : (e.1 == p) = true := by
    have := List.find?_some hfind
    simpa using this
  exact ⟨e, List.mem_of_find?_eq_some hfind, eq_of_beq hpred, hsnd⟩

theorem segs_ok_of_lookup {fs : FS} (hwf : fs.wfb = true) {p : List String} {c : String}
    (h : fs.lookup p = some c) : p.all segOk = true := by
  obtain ⟨e, hmem, hp, -⟩ := lookup_mem h
  have := List.all_eq_true.mp hwf e hmem
  rw [hp] at this
  exact this

theorem segOk_spec {s : String} (h : segOk s = true) :
    (s == "") = false ∧ (s == ".") = false ∧ (s == "..") = false := by
  unfold segOk at h
  simp only [Bool.not_eq_true', Bool.or_eq_false_iff] at h
  exact ⟨h.1.1, h.1.2, h.2⟩

theorem normAux_clean : ∀ (q : List String), q.all segOk = true → ∀ (acc : List String),
    normAux acc q = some (acc ++ q) := by
  intro q
  induction q with
  | nil =>
    intro _ acc
    simp [normAux]
  | cons s rest ih =>
    intro h acc
    rw [List.all_cons, Bool.and_eq_true] at h
    obtain ⟨h1, h2, h3⟩ := segOk_spec h.1
    unfold normAux
    rw [if_neg (by rw [h1, h2]; decide), if_neg (by rw [h3]; decide)]
    rw [ih h.2 (acc ++ [s])]
    rw [List.append_assoc]
    rfl

theorem normSegs_clean (q : List String) (h : q.all segOk = true) :
    normSegs q = some q := by
  unfold normSegs
  rw [normAux_clean q h []]
  rfl

theorem normAux_none_mono (x : String) : ∀ (tl : List String) (acc : List String),
    normAux (x :: acc) tl = none → normAux acc tl = none := by
  intro tl
  induction tl with
  | nil =>
    intro acc h
    exact absurd h (by simp [normAux])
  | cons s rest ih =>
    intro acc h
    unfold normAux at h ⊢
    by_cases h1 : (s == "" || s == ".") = true
    · rw [if_pos h1] at h ⊢
      exact ih acc h
    · rw [if_neg h1] at h ⊢
      by_cases h2 : (s == "..") = true
      · rw [if_pos h2] at h ⊢
        cases acc with
        | nil => rfl
        | cons a as =>
          have h3 : normAux ((x :: a :: as).dropLast) rest = none := h
          rw [List.dropLast_cons₂] at h3
          exact ih ((a :: as).dropLast) h3
      · rw [if_neg h2] at h ⊢
        exact ih (acc ++ [s]) h

theorem withHtml_ne_nil {l : List String} (h : l ≠ []) : withHtml l ≠ [] := by
  cases l with
  | nil => exact absurd rfl h
  | cons a t => cases t <;> simp [withHtml]

theorem withHtml_append (a : List String) {b : List String} (hb : b ≠ []) :
    withHtml (a ++ b) = a ++ withHtml b := by
  induction a with
  | nil => rfl
  | cons x xs ih =>
    cases hxb : xs ++ b with
    | nil => exact absurd (List.append_eq_nil.mp hxb).2 hb
    | cons y r =>
      rw [List.cons_append, hxb]
      show x :: withHtml (y :: r) = x :: xs ++ withHtml b
      rw [← hxb, ih]
      rfl

theorem staticCore_pass_of_noMatch {fs : FS} {root ns : List String}
    (h : noMatch fs root ns) (t : Bool) :
    staticCore fs root ns t = SR.pass := by
  obtain ⟨h1, h2, h3, h4⟩ := h
  unfold staticCore
  split
  · rfl
  · split
    · rw [h1]
    · rw [h2, h3]
      simp only [Bool.false_eq_true, if_false]
      split
      · rfl
      · rw [h4]

theorem staticServe_eq_core {fs : FS} {root segs ns : List String} {t : Bool}
    (hn : normSegs segs = some ns) :
    staticServe fs root segs t = staticCore fs root ns t := by
  unfold staticServe
  rw [hn]

theorem staticServe_pass_of_none {fs : FS} {root segs : List String} {t : Bool}
    (hn : normSegs segs = none) :
    staticServe fs root segs t = SR.pass := by
  unfold staticServe
  rw [hn]

theorem staticCore_served_of_file {fs : FS} {root ns : List String} {c : String}
    (hdot : (ns.getLast?.map headDot).getD false = false)
    (hfile : fs.lookup (root ++ ns) = some c) :
    staticCore fs root ns false = SR.served c := by
  unfold staticCore
  rw [hdot, hfile]
  rfl

theorem staticCore_served_of_index {fs : FS} {root ns : List String} {c : String}
    (hidx : fs.lookup (root ++ ns ++ ["index.html"]) = some c) :
    staticCore fs root ns true = SR.served c := by
  unfold staticCore
  rw [hidx]
  rfl

theorem staticCore_redir_of_dir {fs : FS} {root ns : List String}
    (hdot : (ns.getLast?.map headDot).getD false = false)
    (hnof : fs.lookup (root ++ ns) = none)
    (hdir : fs.isDir (root ++ ns) = true) :
    staticCore fs root ns false = SR.redir := by
  unfold staticCore
  rw [hdot, hnof, hdir]
  rfl

theorem staticCore_html_of_missing {fs : FS} {root ns : List String} {c : String}
    (hdot : (ns.getLast?.map headDot).getD false = false)
    (hext : ((root ++ ns).getLast?.map hasExt).getD true = false)
    (hnof : fs.lookup (root ++ ns) = none)
    (hnod : fs.isDir (root ++ ns) = false)
    (hhtml : fs.lookup (withHtml (root ++ ns)) = some c) :
    staticCore fs root ns false = SR.served c := by
  unfold staticCore
  rw [hdot, hnof, hnod, hext, hhtml]
  rfl

theorem staticCore_served_source {fs : FS} {root ns : List String} {t : Bool} {c : String}
    (h : staticCore fs root ns t = SR.served c) :
    (t = true ∧ fs.lookup (root ++ ns ++ ["index.html"]) = some c) ∨
    (t = false ∧ (fs.lookup (root ++ ns) = some c ∨
      (fs.isDir (root ++ ns) = false ∧ fs.lookup (withHtml (root ++ ns)) = some c))) := by
  unfold staticCore at h
  by_cases hdot : (!t && (Option.map headDot ns.getLast?).getD false) = true
  · rw [if_pos hdot] at h
    exact absurd h (by simp)
  · rw [if_neg hdot] at h
    by_cases ht : t = true
    · rw [if_pos ht] at h
      left
      refine ⟨ht, ?_⟩
      cases hl : fs.lookup (root ++ ns ++ ["index.html"]) with
      | none =>
        rw [hl] at h
        exact absurd h (by simp)
      | some d =>
        rw [hl] at h
        have h2 : SR.served d = SR.served c := h
        injection h2 with hdc
        rw [hdc]
    · rw [if_neg ht] at h
      right
      refine ⟨Bool.eq_false_iff.mpr ht, ?_⟩
      cases hl : fs.lookup (root ++ ns) with
      | some d =>
        rw [hl] at h
        have h2 : SR.served d = SR.served c := h
        injection h2 with hdc
        exact Or.inl (by rw [hdc])
      | none =>
        rw [hl] at h
        have h2 : (if fs.isDir (root ++ ns) then SR.redir
            else if ((root ++ ns).getLast?.map hasExt).getD true then SR.pass
            else match fs.lookup (withHtml (root ++ ns)) with
              | some c => SR.served c
              | none => SR.pass) = SR.served c := h
        by_cases hdir : fs.isDir (root ++ ns) = true
        · rw [if_pos hdir] at h2
          exact absurd h2 (by simp)
        · rw [if_neg hdir] at h2
          by_cases hx : ((root ++ ns).getLast?.map hasExt).getD true = true
          · rw [if_pos hx] at h2
            exact absurd h2 (by simp)
          · rw [if_neg hx] at h2
            cases hl2 : fs.lookup (withHtml (root ++ ns)) with
            | none =>
              rw [hl2] at h2
              exact absurd h2 (by simp)
            | some d =>
              rw [hl2] at h2
              have h3 : SR.served d = SR.served c := h2
              injection h3 with hdc
              exact Or.inr ⟨Bool.eq_false_iff.mpr hdir, by rw [hdc]⟩

theorem staticServe_served_source {fs : FS} {root segs : List String} {t : Bool} {c : String}
    (h : staticServe fs root segs t = SR.served c) :
    ∃ ns, normSegs segs = some ns ∧ staticCore fs root ns t = SR.served c := by
  unfold staticServe at h
  cases hn : normSegs segs with
  | none =>
    rw [hn] at h
    exact absurd h (by simp)
  | some ns =>
    rw [hn] at h
    exact ⟨ns, rfl, h⟩

theorem staticCore_trailing_pass {fs : FS} {root ns : List String}
    (h : fs.lookup (root ++ ns ++ ["index.html"]) = none) :
    staticCore fs root ns true = SR.pass := by
  unfold staticCore
  rw [if_neg (by simp), if_pos rfl, h]

/-- Every probe of one static strategy misses on the request's normalized
path (or the path is refused outright): the strategy falls through. -/
def misses (fs : FS) (root : List String) (segs : List String) : Prop :=
  match normSegs segs with
  | none => True
  | some ns => noMatch fs root ns

instance missesDecidable (fs : FS) (root segs : List String) :
    Decidable (misses fs root segs) := by
  unfold misses
  cases normSegs segs with
  | none => exact isTrue trivial
  | some ns => exact noMatchDecidable fs root ns

theorem staticServe_pass_of_misses {fs : FS} {root segs : List String}
    (h : misses fs root segs) (t : Bool) :
    staticServe fs root segs t = SR.pass := by
  unfold misses at h
  unfold staticServe
  cases hn : normSegs segs with
  | none => rfl
  | some ns =>
    rw [hn] at h
    have h2 : noMatch fs root ns := h
    exact staticCore_pass_of_noMatch h2 t

theorem isDir_of_lookup_extend {fs : FS} {p : List String} {x : String} {c : String}
    (h : fs.lookup (p ++ [x]) = some c) : fs.isDir p = true := by
  obtain ⟨e, hmem, hp, -⟩ := lookup_mem h
  unfold FS.isDir
  rw [List.any_eq_true]
  refine ⟨e, hmem, ?_⟩
  show (!(e.1 == p) && p.isPrefixOf e.1) = true
  rw [hp]
  have hne : (p ++ [x] == p) = false := by
    rw [beq_eq_false_iff_ne]
    intro heq
    have hlen := congrArg List.length heq
    simp at hlen
  have hpre : p.isPrefixOf (p ++ [x]) = true := by
    rw [List.isPrefixOf_iff_prefix]
    exact List.prefix_append p [x]
  rw [hne, hpre]
  rfl

theorem lookup_extend_none_of_not_dir {fs : FS} {p : List String} {x : String}
    (h : fs.isDir p = false) : fs.lookup (p ++ [x]) = none := by
  cases hl : fs.lookup (p ++ [x]) with
  | none => rfl
  | some c =>
    have := isDir_of_lookup_extend hl
    rw [h] at this
    cases this

theorem serve_file_of_strat1 {base : List String} {fs : FS} {p : ReqPath} {c : String}
    (h : strat1 base fs p = SR.served c) :
    serve base fs p = Response.file c := by
  unfold serve
  rw [h]

theorem serve_file_of_strat2 {base : List String} {fs : FS} {p : ReqPath} {c : String}
    (h1 : strat1 base fs p = SR.pass) (h2 : strat2 base fs p = SR.served c) :
    serve base fs p = Response.file c := by
  unfold serve
  rw [h1, h2]

theorem serve_file_of_strat3 {base : List String} {fs : FS} {p : ReqPath} {c : String}
    (h1 : strat1 base fs p = SR.pass) (h2 : strat2 base fs p = SR.pass)
    (h3 : strat3 base fs p = SR.served c) :
    serve base fs p = Response.file c := by
  unfold serve
  rw [h1, h2, h3]

theorem serve_redir_of_strat2 {base : List String} {fs : FS} {p : ReqPath}
    (h1 : strat1 base fs p = SR.pass) (h2 : strat2 base fs p = SR.redir) :
    serve base fs p = Response.redirect301 (pathString p ++ "/") := by
  unfold serve
  rw [h1, h2]

theorem serve_routes {base : List String} {fs : FS} {p : ReqPath}
    (h1 : strat1 base fs p = SR.pass) (h2 : strat2 base fs p = SR.pass)
    (h3 : strat3 base fs p = SR.pass) :
    serve base fs p =
      (if matchHealth p then Response.json jsonOkBody
       else if matchRoot p then Response.redirect302 "/web/buyer/"
       else Response.notFound) := by
  unfold serve
  rw [h1, h2, h3]

theorem strat1_pass_of_not_web {base : List String} {fs : FS} {q : List String} {t : Bool}
    (hweb : (q.head?.map (fun s => lowerStr s == "web")).getD false = false) :
    strat1 base fs ⟨q, t⟩ = SR.pass := by
  have hm : mountWeb ⟨q, t⟩ = false := hweb
  simp only [strat1, hm, Bool.false_eq_true, if_false]

theorem serve_web_file {base : List String} {fs : FS} {q : List String} {c : String}
    (hall : q.all segOk = true)
    (hdot : (q.getLast?.map headDot).getD false = false)
    (hfile : fs.lookup (rootA base ++ q) = some c) :
    serve base fs ⟨"web" :: q, false⟩ = Response.file c := by
  apply serve_file_of_strat1
  unfold strat1
  rw [if_pos (show mountWeb ⟨"web" :: q, false⟩ = true from rfl)]
  show staticServe fs (rootA base) q false = SR.served c
  rw [staticServe_eq_core (normSegs_clean q hall)]
  exact staticCore_served_of_file hdot hfile

theorem serve_plain_fileA {base : List String} {fs : FS} {q : List String} {c : String}
    (hweb : (q.head?.map (fun s => lowerStr s == "web")).getD false = false)
    (hall : q.all segOk = true)
    (hdot : (q.getLast?.map headDot).getD false = false)
    (hfile : fs.lookup (rootA base ++ q) = some c) :
    serve base fs ⟨q, false⟩ = Response.file c := by
  apply serve_file_of_strat2
  · exact strat1_pass_of_not_web hweb
  · unfold strat2
    rw [staticServe_eq_core (normSegs_clean q hall)]
    exact staticCore_served_of_file hdot hfile

theorem base_strict_prefix (base : List String) {l : List String} (hl : l ≠ []) :
    base <+: (base ++ l) ∧ base.length < (base ++ l).length := by
  constructor
  · exact List.prefix_append base l
  · rw [List.length_append]
    have : 0 < l.length := List.length_pos.mpr hl
    omega

theorem served_under_base_web {base : List String} {fs : FS} {segs : List String}
    {t : Bool} {c : String}
    (h : staticServe fs (rootA base) segs t = SR.served c) :
    ∃ l, l ≠ [] ∧ fs.lookup (base ++ l) = some c := by
  obtain ⟨ns, -, hcore⟩ := staticServe_served_source h
  rcases staticCore_served_source hcore with ⟨ht, hl⟩ | ⟨ht, hl | ⟨hdf, hl⟩⟩
  · refine ⟨"web" :: (ns ++ ["index.html"]), by simp, ?_⟩
    have harr : base ++ ("web" :: (ns ++ ["index.html"])) = rootA base ++ ns ++ ["index.html"] := by
      simp [rootA]
    rw [harr]
    exact hl
  · refine ⟨"web" :: ns, by simp, ?_⟩
    have harr : base ++ ("web" :: ns) = rootA base ++ ns := by
      simp [rootA]
    rw [harr]
    exact hl
  · refine ⟨withHtml ("web" :: ns), withHtml_ne_nil (by simp), ?_⟩
    rw [← withHtml_append base (show ("web" :: ns) ≠ [] by simp)]
    have harr : base ++ ("web" :: ns) = rootA base ++ ns := by
      simp [rootA]
    rw [harr]
    exact hl

theorem served_under_base {base : List String} {fs : FS} {segs : List String}
    {t : Bool} {c : String}
    (hdir : fs.isDir base = true) (hnofile : fs.lookup base = none)
    (h : staticServe fs base segs t = SR.served c) :
    ∃ l, l ≠ [] ∧ fs.lookup (base ++ l) = some c := by
  obtain ⟨ns, -, hcore⟩ := staticServe_served_source h
  rcases staticCore_served_source hcore with ⟨ht, hl⟩ | ⟨ht, hl | ⟨hdf, hl⟩⟩
  · refine ⟨ns ++ ["index.html"], by simp, ?_⟩
    rw [← List.append_assoc]
    exact hl
  · by_cases hns : ns = []
    · subst hns
      rw [List.append_nil] at hl
      rw [hnofile] at hl
      cases hl
    · exact ⟨ns, hns, hl⟩
  · by_cases hns : ns = []
    · subst hns
      rw [List.append_nil] at hdf
      rw [hdir] at hdf
      exact absurd hdf (by decide)
    · refine ⟨withHtml ns, withHtml_ne_nil hns, ?_⟩
      rw [← withHtml_append base hns]
      exact hl

/-! Claim C1. The claim asserts the `/` redirect fires for every filesystem
state. It does not: the static middlewares run first, and a top-level
`index.html` in either root is served instead. -/

/-- Filesystem refuting C1: root (a) holds a top-level index.html. -/
def fsC1 : FS := ⟨[(["srv", "web", "index.html"], "hello")]⟩

/-- C1 counterexample: with an index.html at the top of root (a), GET "/"
serves that file instead of redirecting to /web/buyer/. -/
theorem c1_counterexample :
    serve ["srv"] fsC1 ⟨[], true⟩ = Response.file "hello" ∧
    Response.file "hello" ≠ Response.redirect302 "/web/buyer/" := by
  constructor
  · decide
  · decide

/-- C1 (amended): GET "/" responds with a 302 redirect to exactly
"/web/buyer/" for every filesystem state in which neither root directory
contains a top-level index.html file. -/
theorem c1_root_redirect (base : List String) (fs : FS)
    (hA : fs.lookup (rootA base ++ ["index.html"]) = none)
    (hB : fs.lookup (base ++ ["index.html"]) = none) :
    serve base fs ⟨[], true⟩ = Response.redirect302 "/web/buyer/" := by
  have hs1 : strat1 base fs ⟨[], true⟩ = SR.pass := by
    unfold strat1
    rw [if_neg (show ¬(mountWeb ⟨[], true⟩ = true) by decide)]
  have hs2 : strat2 base fs ⟨[], true⟩ = SR.pass := by
    unfold strat2
    rw [staticServe_eq_core (show normSegs ([] : List String) = some [] by decide)]
    exact staticCore_trailing_pass (by simpa using hA)
  have hs3 : strat3 base fs ⟨[], true⟩ = SR.pass := by
    unfold strat3
    rw [staticServe_eq_core (show normSegs ([] : List String) = some [] by decide)]
    exact staticCore_trailing_pass (by simpa using hB)
  rw [serve_routes hs1 hs2 hs3]
  rfl

/-- C1 witness: on the empty filesystem GET "/" redirects to /web/buyer/. -/
theorem c1_witness :
    serve ["srv"] ⟨[]⟩ ⟨[], true⟩ = Response.redirect302 "/web/buyer/" :=
  c1_root_redirect ["srv"] ⟨[]⟩ rfl rfl

/-! Claim C2. The claim asserts GET /health is 200 JSON whenever no file
named `health` or `health.html` exists, independent of all other
filesystem state. A directory named `health` under a root breaks it: the
static middleware answers with a 301 redirect to /health/. -/

/-- Filesystem refuting C2: a directory named health under root (a),
containing only x.txt, so no file named health or health.html exists. -/
def fsC2 : FS := ⟨[(["srv", "web", "health", "x.txt"], "z")]⟩

/-- C2 counterexample: with a directory named health under root (a) (and no
file named health or health.html anywhere), GET /health is a 301 redirect
to /health/, not the 200 JSON body. -/
theorem c2_counterexample :
    fsC2.lookup (["srv", "web", "health"]) = none ∧
    fsC2.lookup (["srv", "web", "health.html"]) = none ∧
    fsC2.lookup (["srv", "health"]) = none ∧
    fsC2.lookup (["srv", "health.html"]) = none ∧
    serve ["srv"] fsC2 ⟨["health"], false⟩ = Response.redirect301 "/health/" ∧
    Response.redirect301 "/health/" ≠ Response.json jsonOkBody := by
  refine ⟨by decide, by decide, by decide, by decide, by decide, by decide⟩

/-- C2 (amended): GET /health returns 200 with body exactly the JSON
serialization of ok-true whenever no file or directory named `health` and
no file named `health.html` exists at the top level of either root. -/
theorem c2_health (base : List String) (fs : FS)
    (hA1 : fs.lookup (rootA base ++ ["health"]) = none)
    (hA2 : fs.isDir (rootA base ++ ["health"]) = false)
    (hA3 : fs.lookup (rootA base ++ ["health.html"]) = none)
    (hB1 : fs.lookup (base ++ ["health"]) = none)
    (hB2 : fs.isDir (base ++ ["health"]) = false)
    (hB3 : fs.lookup (base ++ ["health.html"]) = none) :
    serve base fs ⟨["health"], false⟩ = Response.json jsonOkBody := by
  have hwA : fs.lookup (withHtml (rootA base ++ ["health"])) = none := by
    rw [withHtml_append (rootA base) (show (["health"] : List String) ≠ [] by decide)]
    have : withHtml ["health"] = ["health.html"] := by decide
    rw [this]
    exact hA3
  have hwB : fs.lookup (withHtml (base ++ ["health"])) = none := by
    rw [withHtml_append base (show (["health"] : List String) ≠ [] by decide)]
    have : withHtml ["health"] = ["health.html"] := by decide
    rw [this]
    exact hB3
  have hnmA : noMatch fs (rootA base) ["health"] :=
    ⟨lookup_extend_none_of_not_dir hA2, hA1, hA2, hwA⟩
  have hnmB : noMatch fs base ["health"] :=
    ⟨lookup_extend_none_of_not_dir hB2, hB1, hB2, hwB⟩
  have hs1 : strat1 base fs ⟨["health"], false⟩ = SR.pass := by
    unfold strat1
    rw [if_neg (show ¬(mountWeb ⟨["health"], false⟩ = true) by decide)]
  have hs2 : strat2 base fs ⟨["health"], false⟩ = SR.pass := by
    unfold strat2
    rw [staticServe_eq_core (show normSegs ["health"] = some ["health"] by decide)]
    exact staticCore_pass_of_noMatch hnmA false
  have hs3 : strat3 base fs ⟨["health"], false⟩ = SR.pass := by
    unfold strat3
    rw [staticServe_eq_core (show normSegs ["health"] = some ["health"] by decide)]
    exact staticCore_pass_of_noMatch hnmB false
  rw [serve_routes hs1 hs2 hs3]
  rfl

/-- C2 witness: on the empty filesystem GET /health returns the JSON body. -/
theorem c2_witness :
    serve ["srv"] ⟨[]⟩ ⟨["health"], false⟩ = Response.json jsonOkBody :=
  c2_health ["srv"] ⟨[]⟩ rfl rfl rfl rfl rfl rfl

/-! Claim C3: the three static strategies are consulted in order
(stripped against root (a), full path against root (a), full path against
root (b)), and the earliest strategy that locates a file is the one whose
file is served. -/

/-- C3: if the first strategy serves a file, that file is the response,
whatever the later strategies would do; the second strategy's file is
served only when the first passed; the third only when both passed. -/
theorem c3_strategy_order (base : List String) (fs : FS) (p : ReqPath) (c : String) :
    (strat1 base fs p = SR.served c → serve base fs p = Response.file c) ∧
    (strat1 base fs p = SR.pass → strat2 base fs p = SR.served c →
      serve base fs p = Response.file c) ∧
    (strat1 base fs p = SR.pass → strat2 base fs p = SR.pass →
      strat3 base fs p = SR.served c → serve base fs p = Response.file c) :=
  ⟨fun h1 => serve_file_of_strat1 h1,
   fun h1 h2 => serve_file_of_strat2 h1 h2,
   fun h1 h2 h3 => serve_file_of_strat3 h1 h2 h3⟩

/-- Filesystem for the C3 witness. -/
def fsC3 : FS := ⟨[(["srv", "web", "a.txt"], "A")]⟩

/-- C3 witness: /a.txt passes the mounted strategy and is served by the
second strategy from root (a). -/
theorem c3_witness :
    serve ["srv"] fsC3 ⟨["a.txt"], false⟩ = Response.file "A" :=
  (c3_strategy_order ["srv"] fsC3 ⟨["a.txt"], false⟩ "A").2.1 (by decide) (by decide)

/-! Claim C4. The claim asserts every path under the /web/ prefix whose stripped
remainder is a file under root (a) is served with 200. Dotfile basenames
refute it: express.static ignores them by default. -/

/-- Filesystem refuting C4: a dotfile under root (a). -/
def fsC4 : FS := ⟨[(["srv", "web", ".secret"], "S")]⟩

/-- C4 counterexample: the file .secret exists under root (a) but GET
/web/.secret is answered 404, not 200 with its bytes. -/
theorem c4_counterexample :
    fsC4.lookup (rootA ["srv"] ++ [".secret"]) = some "S" ∧
    serve ["srv"] fsC4 ⟨["web", ".secret"], false⟩ = Response.notFound ∧
    Response.notFound ≠ Response.file "S" := by
  refine ⟨by decide, by decide, by decide⟩

/-- C4 (amended): for every path /web/q (no trailing slash) whose final
segment does not begin with a dot, on a well-formed filesystem holding a
file at root(a)/q with contents c, the response is 200 with body c. -/
theorem c4_web_file (base : List String) (fs : FS) (q : List String) (c : String)
    (hwf : fs.wfb = true) (_hq : q ≠ [])
    (hdot : (q.getLast?.map headDot).getD false = false)
    (hfile : fs.lookup (rootA base ++ q) = some c) :
    serve base fs ⟨"web" :: q, false⟩ = Response.file c := by
  have hall := segs_ok_of_lookup hwf hfile
  rw [List.all_append, Bool.and_eq_true] at hall
  exact serve_web_file hall.2 hdot hfile

/-- Filesystem for the C4 witness. -/
def fsC4w : FS := ⟨[(["srv", "web", "a.txt"], "A")]⟩

/-- C4 witness: GET /web/a.txt serves the file at root(a)/a.txt. -/
theorem c4_witness :
    serve ["srv"] fsC4w ⟨["web", "a.txt"], false⟩ = Response.file "A" :=
  c4_web_file ["srv"] fsC4w ["a.txt"] "A" (by decide) (by decide) (by decide) (by decide)

/-! Claim C9. The port comes from `process.env.PORT || 8080`. The claim
says any set value is used; JavaScript's logical-or makes the empty string
fall back to 8080, so only nonempty values are used. -/

/-- C9 counterexample: with PORT set to the empty string the listener gets
8080, not the set (empty) value. -/
theorem c9_counterexample :
    portOf (some "") = Sum.inr 8080 ∧ portOf (some "") ≠ Sum.inl "" := by
  refine ⟨by decide, by decide⟩

/-- C9 (amended): a nonempty PORT value is used verbatim as the listen
port, and an unset PORT falls back to the default 8080. -/
theorem c9_port (s : String) (hs : s ≠ "") :
    portOf (some s) = Sum.inl s ∧ portOf none = Sum.inr 8080 := by
  constructor
  · show (if (s == "") = true then (Sum.inr 8080 : String ⊕ Nat) else Sum.inl s) = Sum.inl s
    rw [if_neg (by simp [hs])]
  · rfl

/-- C9 witness: PORT=9000 binds 9000; unset binds 8080. -/
theorem c9_witness :
    portOf (some "9000") = Sum.inl "9000" ∧ portOf none = Sum.inr 8080 :=
  c9_port "9000" (by decide)

/-! Claim C5. The no-escape half is true: every 200 file response comes
from a file strictly below `base` (root (b), which also contains root
(a)). The "such requests are answered with 403 or 404" half is false as
stated: send normalizes the path before its malicious-path check, so a
`..` path that stays inside the root, such as /a/../b.txt, is served 200;
only a path whose normalization would climb above the root (normSegs =
none) is refused and ends in 404. -/

/-- Filesystem refuting C5 as stated: an in-root traversal path. -/
def fsC5x : FS := ⟨[(["srv", "web", "b.txt"], "B")]⟩

/-- C5 counterexample: /a/../b.txt contains a `..` segment (a traversal
attempt), yet the server answers 200 with root(a)/b.txt's bytes — neither
403 nor 404 — because send normalizes before rejecting. -/
theorem c5_counterexample :
    ((["a", "..", "b.txt"] : List String).any (fun s => s == "..")) = true ∧
    serve ["srv"] fsC5x ⟨["a", "..", "b.txt"], false⟩ = Response.file "B" ∧
    Response.file "B" ≠ Response.notFound := by
  refine ⟨by decide, by decide, by decide⟩

/-- C5 (amended): provided the server's base directory exists (it holds
server.js) and is a directory rather than a file, any 200 file response
comes from a file strictly inside the base directory — no request ever
escapes the configured roots; and any request whose path still climbs
above the root after normalization (such as /web/../../etc/passwd) is
answered 404. In-root `..` paths are served normally. -/
theorem c5_no_escape (base : List String) (fs : FS) (p : ReqPath) :
    (fs.isDir base = true → fs.lookup base = none →
      ∀ c, serve base fs p = Response.file c →
      ∃ pp, fs.lookup pp = some c ∧ base <+: pp ∧ base.length < pp.length) ∧
    (normSegs p.segs = none → serve base fs p = Response.notFound) := by
  constructor
  · intro hdir hnofile c hserve
    unfold serve at hserve
    have key : ∃ l, l ≠ [] ∧ fs.lookup (base ++ l) = some c := by
      cases hval1 : strat1 base fs p with
      | served c1 =>
        rw [hval1] at hserve
        have h' : Response.file c1 = Response.file c := hserve
        injection h' with hc
        subst hc
        unfold strat1 at hval1
        by_cases hm : mountWeb p = true
        · rw [if_pos hm] at hval1
          exact served_under_base_web hval1
        · rw [if_neg hm] at hval1
          exact absurd hval1 (by simp)
      | redir =>
        rw [hval1] at hserve
        exact absurd hserve (by simp)
      | pass =>
        rw [hval1] at hserve
        cases hval2 : strat2 base fs p with
        | served c1 =>
          rw [hval2] at hserve
          have h' : Response.file c1 = Response.file c := hserve
          injection h' with hc
          subst hc
          exact served_under_base_web hval2
        | redir =>
          rw [hval2] at hserve
          exact absurd hserve (by simp)
        | pass =>
          rw [hval2] at hserve
          cases hval3 : strat3 base fs p with
          | served c1 =>
            rw [hval3] at hserve
            have h' : Response.file c1 = Response.file c := hserve
            injection h' with hc
            subst hc
            exact served_under_base hdir hnofile hval3
          | redir =>
            rw [hval3] at hserve
            exact absurd hserve (by simp)
          | pass =>
            rw [hval3] at hserve
            have h2 : (if matchHealth p then Response.json jsonOkBody
                else if matchRoot p then Response.redirect302 "/web/buyer/"
                else Response.notFound) = Response.file c := hserve
            by_cases hh : matchHealth p = true
            · rw [if_pos hh] at h2
              exact absurd h2 (by simp)
            · rw [if_neg hh] at h2
              by_cases hr : matchRoot p = true
              · rw [if_pos hr] at h2
                exact absurd h2 (by simp)
              · rw [if_neg hr] at h2
                exact absurd h2 (by simp)
    obtain ⟨l, hlne, hlk⟩ := key
    obtain ⟨hpre, hlen⟩ := base_strict_prefix base hlne
    exact ⟨base ++ l, hlk, hpre, hlen⟩
  · intro hnone
    have hsne : p.segs ≠ [] := by
      intro h0
      rw [h0] at hnone
      exact absurd hnone (by decide)
    have hs2 : strat2 base fs p = SR.pass := staticServe_pass_of_none hnone
    have hs3 : strat3 base fs p = SR.pass := staticServe_pass_of_none hnone
    have hs1 : strat1 base fs p = SR.pass := by
      unfold strat1
      by_cases hm : mountWeb p = true
      · rw [if_pos hm]
        have htl : normSegs p.segs.tail = none := by
          unfold mountWeb at hm
          cases hsegs : p.segs with
          | nil => exact absurd hsegs hsne
          | cons hd tl =>
            rw [hsegs] at hm hnone
            simp only [List.head?_cons, Option.map_some', Option.getD_some] at hm
            have hw : lowerStr hd = "web" := eq_of_beq hm
            have h1 : (hd == "") = false := by
              rw [beq_eq_false_iff_ne]
              intro he
              rw [he] at hw
              exact absurd hw (by decide)
            have h2 : (hd == ".") = false := by
              rw [beq_eq_false_iff_ne]
              intro he
              rw [he] at hw
              exact absurd hw (by decide)
            have h3 : (hd == "..") = false := by
              rw [beq_eq_false_iff_ne]
              intro he
              rw [he] at hw
              exact absurd hw (by decide)
            unfold normSegs normAux at hnone
            rw [h1, h2, h3] at hnone
            simp only [Bool.or_self, Bool.false_eq_true, if_false, List.nil_append] at hnone
            show normSegs tl = none
            unfold normSegs
            exact normAux_none_mono hd tl [] hnone
        exact staticServe_pass_of_none htl
      · rw [if_neg hm]
    have hmh : matchHealth p = false := by
      rw [Bool.eq_false_iff]
      intro hmt
      unfold matchHealth at hmt
      have hmap : p.segs.map lowerStr = ["health"] := eq_of_beq hmt
      cases hsegs : p.segs with
      | nil =>
        rw [hsegs] at hmap
        simp at hmap
      | cons hd tl =>
        rw [hsegs] at hmap hnone
        cases tl with
        | cons b bs =>
          simp at hmap
        | nil =>
          simp only [List.map_cons, List.map_nil] at hmap
          have hh : lowerStr hd = "health" := by
            injection hmap
          have h1 : (hd == "") = false := by
            rw [beq_eq_false_iff_ne]
            intro he
            rw [he] at hh
            exact absurd hh (by decide)
          have h2 : (hd == ".") = false := by
            rw [beq_eq_false_iff_ne]
            intro he
            rw [he] at hh
            exact absurd hh (by decide)
          have h3 : (hd == "..") = false := by
            rw [beq_eq_false_iff_ne]
            intro he
            rw [he] at hh
            exact absurd hh (by decide)
          unfold normSegs normAux at hnone
          rw [h1, h2, h3] at hnone
          simp [normAux] at hnone
    have hmr : matchRoot p = false := by
      unfold matchRoot
      rw [beq_eq_false_iff_ne]
      exact hsne
    rw [serve_routes hs1 hs2 hs3]
    simp only [hmh, hmr, Bool.false_eq_true, if_false]

/-- Filesystem for the C5 witness: a sensitive file outside the roots. -/
def fsC5 : FS := ⟨[(["etc", "passwd"], "root:x:0:0")]⟩

/-- C5 witness: the escaping traversal request for /web/../../etc/passwd
is answered 404, not with the file outside the roots. -/
theorem c5_witness :
    serve ["srv"] fsC5 ⟨["web", "..", "..", "etc", "passwd"], false⟩ = Response.notFound :=
  (c5_no_escape ["srv"] fsC5 ⟨["web", "..", "..", "etc", "passwd"], false⟩).2 (by decide)

/-! Claim C6. The claim asserts every path with no file under any root,
other than /health and /, gets a 404. Express route matching is
case-insensitive and ignores a trailing slash, so GET /health/ (which is
neither /health nor /) still returns the 200 JSON body, refuting the claim.
A path naming an extensionless directory would likewise get a 301, not 404. -/

/-- C6 counterexample: on the empty filesystem, /health/ differs from both
excluded paths yet is answered with the JSON body rather than 404. -/
theorem c6_counterexample :
    pathString ⟨["health"], true⟩ = "/health/" ∧
    ("/health/" : String) ≠ "/health" ∧
    ("/health/" : String) ≠ "/" ∧
    serve ["srv"] ⟨[]⟩ ⟨["health"], true⟩ = Response.json jsonOkBody ∧
    Response.json jsonOkBody ≠ Response.notFound := by
  refine ⟨by decide, by decide, by decide, by decide, by decide⟩

/-- C6 (amended): if every probe of every strategy misses on the request's
normalized path (no file, no directory, no index file, no .html variant,
for the normalized stripped path when the /web mount applies and for the
normalized full path under both roots — or the path is refused outright),
and the path does not match the /health route (case-insensitively,
ignoring a trailing slash) and is not the root path, then the response is
the default 404. -/
theorem c6_not_found (base : List String) (fs : FS) (p : ReqPath)
    (h1 : mountWeb p = true → misses fs (rootA base) p.segs.tail)
    (h2 : misses fs (rootA base) p.segs)
    (h3 : misses fs base p.segs)
    (hh : p.segs.map lowerStr ≠ ["health"])
    (hr : p.segs ≠ []) :
    serve base fs p = Response.notFound := by
  have hs1 : strat1 base fs p = SR.pass := by
    unfold strat1
    by_cases hm : mountWeb p = true
    · rw [if_pos hm]
      exact staticServe_pass_of_misses (h1 hm) p.trailing
    · rw [if_neg hm]
  have hs2 : strat2 base fs p = SR.pass := staticServe_pass_of_misses h2 p.trailing
  have hs3 : strat3 base fs p = SR.pass := staticServe_pass_of_misses h3 p.trailing
  have hmh : matchHealth p = false := by
    unfold matchHealth
    rw [beq_eq_false_iff_ne]
    exact hh
  have hmr : matchRoot p = false := by
    unfold matchRoot
    rw [beq_eq_false_iff_ne]
    exact hr
  rw [serve_routes hs1 hs2 hs3]
  simp only [hmh, hmr, Bool.false_eq_true, if_false]

/-- Filesystem for the C6 witness. -/
def fsC6w : FS := ⟨[(["srv", "web", "z.txt"], "Z")]⟩

/-- C6 witness: /nope matches no file anywhere and is answered 404. -/
theorem c6_witness :
    serve ["srv"] fsC6w ⟨["nope"], false⟩ = Response.notFound :=
  c6_not_found ["srv"] fsC6w ⟨["nope"], false⟩ (by decide) (by decide) (by decide)
    (by decide) (by decide)

/-! Claim C7. The claim asserts that whenever some searched root has no
file at an extensionless `p` but has `p.html`, the response is that
`p.html`. An earlier strategy can shadow it: here root (b) satisfies the
premise for /x, yet root (a)'s plain file `x` is what gets served. -/

/-- Filesystem refuting C7: root (a) holds file x, root (b) holds x.html. -/
def fsC7 : FS := ⟨[(["srv", "web", "x"], "A"), (["srv", "x.html"], "B")]⟩

/-- C7 counterexample: under searched root (b) there is no file x but there
is x.html (contents B); still GET /x serves root (a)'s file x (contents A),
not x.html. -/
theorem c7_counterexample :
    hasExt "x" = false ∧
    fsC7.lookup (["srv"] ++ ["x"]) = none ∧
    fsC7.lookup (withHtml (["srv"] ++ ["x"])) = some "B" ∧
    serve ["srv"] fsC7 ⟨["x"], false⟩ = Response.file "A" ∧
    Response.file "A" ≠ Response.file "B" := by
  refine ⟨by decide, by decide, by decide, by decide, by decide⟩

/-- C7 (amended): the .html fallback holds within a single strategy once
the earlier strategies are out of play: for an extensionless, non-dotfile,
traversal-free path that does not hit the /web mount, if root (a) has
neither a file nor a directory at the path but has the .html variant, that
variant's contents are served with 200. -/
theorem c7_html_fallback (base : List String) (fs : FS) (s : List String) (c : String)
    (hweb : (s.head?.map (fun x => lowerStr x == "web")).getD false = false)
    (hclean : s.all segOk = true)
    (hdot : (s.getLast?.map headDot).getD false = false)
    (hext : ((rootA base ++ s).getLast?.map hasExt).getD true = false)
    (hnof : fs.lookup (rootA base ++ s) = none)
    (hnod : fs.isDir (rootA base ++ s) = false)
    (hhtml : fs.lookup (withHtml (rootA base ++ s)) = some c) :
    serve base fs ⟨s, false⟩ = Response.file c := by
  apply serve_file_of_strat2
  · exact strat1_pass_of_not_web hweb
  · unfold strat2
    rw [staticServe_eq_core (normSegs_clean s hclean)]
    exact staticCore_html_of_missing hdot hext hnof hnod hhtml

/-- Filesystem for the C7 witness. -/
def fsC7w : FS := ⟨[(["srv", "web", "page.html"], "P")]⟩

/-- C7 witness: GET /page serves page.html from root (a). -/
theorem c7_witness :
    serve ["srv"] fsC7w ⟨["page"], false⟩ = Response.file "P" :=
  c7_html_fallback ["srv"] fsC7w ["page"] "P" (by decide) (by decide) (by decide)
    (by decide) (by decide) (by decide) (by decide)

/-! Claim C8. The claim asserts GET on a directory path p with an
index.html returns that index content both with and without a trailing
slash. Without the trailing slash express.static answers a 301 redirect to
p plus slash instead; only the slashed form serves the content. -/

/-- Filesystem for C8: a directory d with an index.html under root (a). -/
def fsC8 : FS := ⟨[(["srv", "web", "d", "index.html"], "I")]⟩

/-- C8 counterexample: /d names a directory with an index.html, but GET /d
(no trailing slash) is a 301 redirect to /d/, not a 200 with the index
content. -/
theorem c8_counterexample :
    fsC8.lookup (rootA ["srv"] ++ ["d"] ++ ["index.html"]) = some "I" ∧
    serve ["srv"] fsC8 ⟨["d"], false⟩ = Response.redirect301 "/d/" ∧
    Response.redirect301 "/d/" ≠ Response.file "I" := by
  refine ⟨by decide, by decide, by decide⟩

/-- C8 (amended): for a traversal-free, non-dotfile directory path off the
/web mount whose index.html exists under root (a) and which is not itself
a file, the trailing-slash GET serves the index contents with 200, and the
slashless GET answers a 301 redirect to the path with a trailing slash. -/
theorem c8_directory_index (base : List String) (fs : FS) (s : List String) (c : String)
    (hweb : (s.head?.map (fun x => lowerStr x == "web")).getD false = false)
    (hclean : s.all segOk = true)
    (hdot : (s.getLast?.map headDot).getD false = false)
    (hidx : fs.lookup (rootA base ++ s ++ ["index.html"]) = some c)
    (hnof : fs.lookup (rootA base ++ s) = none) :
    serve base fs ⟨s, true⟩ = Response.file c ∧
    serve base fs ⟨s, false⟩ = Response.redirect301 (pathString ⟨s, false⟩ ++ "/") := by
  have hdir : fs.isDir (rootA base ++ s) = true := isDir_of_lookup_extend hidx
  constructor
  · apply serve_file_of_strat2
    · exact strat1_pass_of_not_web hweb
    · unfold strat2
      rw [staticServe_eq_core (normSegs_clean s hclean)]
      exact staticCore_served_of_index hidx
  · apply serve_redir_of_strat2
    · exact strat1_pass_of_not_web hweb
    · unfold strat2
      rw [staticServe_eq_core (normSegs_clean s hclean)]
      exact staticCore_redir_of_dir hdot hnof hdir

/-- C8 witness: GET /d/ serves the index, GET /d redirects to /d/. -/
theorem c8_witness :
    serve ["srv"] fsC8 ⟨["d"], true⟩ = Response.file "I" ∧
    serve ["srv"] fsC8 ⟨["d"], false⟩ = Response.redirect301 (pathString ⟨["d"], false⟩ ++ "/") :=
  c8_directory_index ["srv"] fsC8 ["d"] "I" (by decide) (by decide) (by decide)
    (by decide) (by decide)

/-! Claim C10. The claim asserts GET /web/q and GET /q agree whenever a
file exists at root(a)/q, for every relative path q. When q itself starts
with the segment web, the unprefixed GET /q is captured by the /web mount
and resolved against a different file, refuting the equivalence. -/

/-- Filesystem refuting C10: root (a) holds both web/x and x. -/
def fsC10 : FS := ⟨[(["srv", "web", "web", "x"], "A"), (["srv", "web", "x"], "B")]⟩

/-- C10 counterexample: with q = web/x, a file exists at root(a)/q with
contents A, but while GET /web/web/x returns A, GET /web/x returns B (the
mount strips its first segment), so the two responses differ. -/
theorem c10_counterexample :
    fsC10.lookup (rootA ["srv"] ++ ["web", "x"]) = some "A" ∧
    serve ["srv"] fsC10 ⟨["web", "web", "x"], false⟩ = Response.file "A" ∧
    serve ["srv"] fsC10 ⟨["web", "x"], false⟩ = Response.file "B" ∧
    ("A" : String) ≠ "B" := by
  refine ⟨by decide, by decide, by decide, by decide⟩

/-- C10 (amended): for every relative path q whose first segment is not
(case-insensitively) web and whose final segment is not a dotfile, on a
well-formed filesystem with a file at root(a)/q, GET /web/q and GET /q
both return 200 with that file's contents. -/
theorem c10_prefix_equiv (base : List String) (fs : FS) (q : List String) (c : String)
    (hwf : fs.wfb = true)
    (hweb : (q.head?.map (fun s => lowerStr s == "web")).getD false = false)
    (hdot : (q.getLast?.map headDot).getD false = false)
    (hfile : fs.lookup (rootA base ++ q) = some c) :
    serve base fs ⟨"web" :: q, false⟩ = Response.file c ∧
    serve base fs ⟨q, false⟩ = Response.file c := by
  have hall := segs_ok_of_lookup hwf hfile
  rw [List.all_append, Bool.and_eq_true] at hall
  exact ⟨serve_web_file hall.2 hdot hfile, serve_plain_fileA hweb hall.2 hdot hfile⟩

/-- Filesystem for the C10 witness. -/
def fsC10w : FS := ⟨[(["srv", "web", "y.txt"], "Y")]⟩

/-- C10 witness: /web/y.txt and /y.txt serve the same file from root (a). -/
theorem c10_witness :
    serve ["srv"] fsC10w ⟨["web", "y.txt"], false⟩ = Response.file "Y" ∧
    serve ["srv"] fsC10w ⟨["y.txt"], false⟩ = Response.file "Y" :=
  c10_prefix_equiv ["srv"] fsC10w ["y.txt"] "Y" (by decide) (by decide) (by decide) (by decide)

end Foody
